import Mathlib

/-!
# Verification of `watermark_remover.py` (PPTXWatermarkRemover)

Shallow embedding of the watermark-removal pass of
`gamma-ai-watermark-remover`.  The presentation-document object model
(python-pptx) is an external collaborator of the program; following the
specification's data model it is embedded as plain inductive data:

* a `Run` is a span of text with an optional hyperlink address
  (`r.hyperlink.address`; `none` models a run with no hyperlink address);
* a `Shape` has a stable identity `sid` (object identity used by the
  program's `id()`-based bookkeeping), a picture flag
  (`shape.shape_type == MSO_SHAPE_TYPE.PICTURE`), optional geometric
  position `left`/`top` (`none` models an unset position whose read
  raises, as caught by `_is_in_corner`), a flag `clickRaises` modelling
  an exception raised while accessing the click action (caught by
  `_shape_has_target_link`), an optional click-hyperlink address, an
  optional text frame, and the member shapes when the shape is a group
  (`slide.shapes` yields only top-level shapes, so members of a group
  are never visited by the program);
* a `Document` carries the presentation-level slide size and the shape
  collections of its masters, layouts and slides.

Geometry uses exact rationals: positions are EMU integers in the real
format and `corner_threshold` is a fraction, so no rounding behaviour of
Python floats is relevant at the scale the program works at.

Counters (`links_removed`, `shapes_removed`, `corner_images_removed`)
are instance attributes of `PPTXWatermarkRemover`, initialised to zero in
`__init__` and mutated in place; they are threaded explicitly.
-/

/-- A text run: `r.text` and the hyperlink address `r.hyperlink.address`
(`none` when the run carries no hyperlink). -/
structure Run where
  text : String
  hyperlink : Option String
  deriving Repr, DecidableEq

/-- A text frame: paragraphs, each a list of runs. -/
abbrev TextFrame := List (List Run)

/-- A shape of the document model.  `children` are the member shapes when
the shape is a group; the program never descends into them. -/
inductive Shape where
  | mk
      (sid : Nat)
      (isPicture : Bool)
      (left : Option ℚ)
      (top : Option ℚ)
      (clickRaises : Bool)
      (clickLink : Option String)
      (textFrame : Option TextFrame)
      (children : List Shape)

/-- Stable object identity of the shape (what `id(shape)` tracks). -/
def Shape.sid : Shape → Nat
  | .mk i _ _ _ _ _ _ _ => i

/-- Whether `shape.shape_type == MSO_SHAPE_TYPE.PICTURE`. -/
def Shape.isPicture : Shape → Bool
  | .mk _ p _ _ _ _ _ _ => p

/-- `shape.left` (`none`: reading the position raises). -/
def Shape.left : Shape → Option ℚ
  | .mk _ _ l _ _ _ _ _ => l

/-- `shape.top` (`none`: reading the position raises). -/
def Shape.top : Shape → Option ℚ
  | .mk _ _ _ t _ _ _ _ => t

/-- Whether accessing the shape's click action raises an exception. -/
def Shape.clickRaises : Shape → Bool
  | .mk _ _ _ _ r _ _ _ => r

/-- The click-action hyperlink address
(`shape.click_action.hyperlink.address`), `none` when absent. -/
def Shape.clickLink : Shape → Option String
  | .mk _ _ _ _ _ a _ _ => a

/-- The text frame, `none` when the shape has no `text_frame` attribute
or it is `None`. -/
def Shape.textFrame : Shape → Option TextFrame
  | .mk _ _ _ _ _ _ tf _ => tf

/-- Member shapes of a group shape (empty for non-groups). -/
def Shape.children : Shape → List Shape
  | .mk _ _ _ _ _ _ _ cs => cs

/-- Replace the text frame of a shape, keeping every other field. -/
def Shape.withTextFrame : Shape → Option TextFrame → Shape
  | .mk i p l t r a _ cs, tf => .mk i p l t r a tf cs

/-- The document: presentation-level slide size and the shape collections
of the slide masters, slide layouts and slides. -/
structure Document where
  slideWidth : ℚ
  slideHeight : ℚ
  masters : List (List Shape)
  layouts : List (List Shape)
  slides : List (List Shape)

/-- The removal counters held on the `PPTXWatermarkRemover` instance. -/
structure Counters where
  links_removed : Nat
  shapes_removed : Nat
  corner_images_removed : Nat
  deriving Repr, DecidableEq

/-- Constructor-level configuration: `target_domain` is lowercased in
`__init__`; `corner_threshold` is a fraction of the slide size. -/
structure Config where
  target_domain : String
  corner_threshold : ℚ
  deriving Repr, DecidableEq

/-- ASCII lowercasing of a string (`str.lower()` on the addresses the
program handles).  Defined by mapping over the character list so that the
kernel can evaluate it. -/
def lowerStr (s : String) : String :=
  ⟨s.data.map Char.toLower⟩

/-- Substring containment on character lists (Python's `needle in hay`). -/
def containsSub (needle : List Char) : List Char → Bool
  | [] => needle.isEmpty
  | c :: t => needle.isPrefixOf (c :: t) || containsSub needle t

/-- `s.strip() == ""`: every character of the string is whitespace. -/
def isBlank (s : String) : Bool :=
  s.data.all Char.isWhitespace

/-- Exact rational multiplication, written through `mkRat` so that the
kernel can evaluate it on concrete inputs; `ratMul_eq_mul` identifies it
with the field multiplication of `ℚ`. -/
def ratMul (a b : ℚ) : ℚ :=
  mkRat (a.num * b.num) (a.den * b.den)

/-- `PPTXWatermarkRemover.__init__`: lowercases the target domain and
zeroes the three counters. -/
def remover_init (target_domain : String) (corner_threshold : ℚ) :
    Config × Counters :=
  (⟨lowerStr target_domain, corner_threshold⟩, ⟨0, 0, 0⟩)

/-- Truthiness-plus-containment test applied to a hyperlink address:
`a is not None and a != "" and target in a.lower()`. -/
def addrMatches (target : String) : Option String → Bool
  | some a => a ≠ "" && containsSub target.data (lowerStr a).data
  | none => false

/-- `_shape_has_target_link`: true only when the shape's own click-action
hyperlink address contains the target domain.  On a match the method also
increments `self.links_removed` ("count link removed with shape").  Any
exception inside the `try` is swallowed and the method returns `False`.
The loop over text-frame runs in the method body only `pass`es, so runs
never influence the result. -/
def shape_has_target_link (t : String) (s : Shape) (c : Counters) :
    Bool × Counters :=
  if s.clickRaises then (false, c)
  else if addrMatches t s.clickLink then
    (true, { c with links_removed := c.links_removed + 1 })
  else (false, c)

/-- `_is_in_corner`: `float(shape.left) >= right_edge and
float(shape.top) >= bottom_edge`; any exception (e.g. an unset position)
is caught and yields `False`. -/
def is_in_corner (s : Shape) (right_edge bottom_edge : ℚ) : Bool :=
  match s.left, s.top with
  | some l, some t => right_edge ≤ l && bottom_edge ≤ t
  | _, _ => false

/-- One run of `_strip_text_run_links`'s inner loop: when the run's
hyperlink address contains the target, clear the address and count it,
then delete the run from its paragraph when its text strips to empty. -/
def strip_run (t : String) (r : Run) : Option Run × Nat :=
  if addrMatches t r.hyperlink then
    if isBlank r.text then (none, 1)
    else (some { r with hyperlink := none }, 1)
  else (some r, 0)

/-- `_strip_text_run_links` over one paragraph's runs (the loop iterates
a snapshot of `p.runs`, so a deleted run does not disturb iteration). -/
def strip_para (t : String) : List Run → List Run × Nat
  | [] => ([], 0)
  | r :: rest =>
    let (r?, n) := strip_run t r
    let (rest', m) := strip_para t rest
    match r? with
    | some r' => (r' :: rest', n + m)
    | none => (rest', n + m)

/-- `_strip_text_run_links`: strips matching run hyperlinks from every
paragraph of the text frame and returns the number of links stripped. -/
def strip_text_run_links (t : String) : TextFrame → TextFrame × Nat
  | [] => ([], 0)
  | p :: ps =>
    let (p', n) := strip_para t p
    let (ps', m) := strip_text_run_links t ps
    (p' :: ps', n + m)

/-- `_remove_shapes_by_id`: walk the live collection, drop every shape
whose identity is in the given set and count the deletions. -/
def remove_shapes_by_id (shapes : List Shape) (ids : List Nat) :
    List Shape × Nat :=
  match shapes with
  | [] => ([], 0)
  | s :: rest =>
    let (rest', n) := remove_shapes_by_id rest ids
    if ids.contains s.sid then (rest', n + 1) else (s :: rest', n)

/-- Step 1 of `_process_slide`: scan the slide's shapes, record the
identity of every corner picture, note whether any of them carries a
target-domain click link (the test increments `links_removed` on each
match), and return the collected identities, the flag and the counters. -/
def corner_scan (t : String) (right_edge bottom_edge : ℚ) :
    List Shape → Counters → List Nat × Bool × Counters
  | [], c => ([], false, c)
  | s :: rest, c =>
    if s.isPicture && is_in_corner s right_edge bottom_edge then
      let (hit, c1) := shape_has_target_link t s c
      let (ids, b, c2) := corner_scan t right_edge bottom_edge rest c1
      (s.sid :: ids, hit || b, c2)
    else corner_scan t right_edge bottom_edge rest c

/-- Steps 2–3 of `_process_slide`: iterate a snapshot of the slide's
shapes; skip a shape when its identity is no longer among the live
collection's identities (`live`); otherwise collect it for removal when
its own click link matches (the test increments `links_removed`), else
strip matching run hyperlinks from its text frame, adding the stripped
count to `links_removed`.  Returns the shapes with updated text frames,
the identities collected for removal, and the counters. -/
def link_sweep (t : String) (live : List Nat) :
    List Shape → Counters → List Shape × List Nat × Counters
  | [], c => ([], [], c)
  | s :: rest, c =>
    if live.contains s.sid then
      let (hit, c1) := shape_has_target_link t s c
      if hit then
        let (rest', ids, c2) := link_sweep t live rest c1
        (s :: rest', s.sid :: ids, c2)
      else
        match s.textFrame with
        | some tf =>
          let (tf', n) := strip_text_run_links t tf
          let c2 := { c1 with links_removed := c1.links_removed + n }
          let (rest', ids, c3) := link_sweep t live rest c2
          (s.withTextFrame (some tf') :: rest', ids, c3)
        | none =>
          let (rest', ids, c2) := link_sweep t live rest c1
          (s :: rest', ids, c2)
    else
      let (rest', ids, c') := link_sweep t live rest c
      (s :: rest', ids, c')

/-- `_process_slide`: corner sweep (when some corner picture carries a
target-domain click link, delete every corner picture, counting them as
`corner_images_removed`), then the link sweep over the remaining shapes,
whose collected shapes are deleted and counted as `shapes_removed`. -/
def process_slide (cfg : Config) (sw sh : ℚ) (shapes : List Shape)
    (c : Counters) : List Shape × Counters :=
  let right_edge := ratMul sw cfg.corner_threshold
  let bottom_edge := ratMul sh cfg.corner_threshold
  let scan := corner_scan cfg.target_domain right_edge bottom_edge shapes c
  let step1 :=
    if scan.2.1 then
      let rem := remove_shapes_by_id shapes scan.1
      (rem.1,
        { scan.2.2 with
          corner_images_removed :=
            scan.2.2.corner_images_removed + rem.2 })
    else (shapes, scan.2.2)
  let live := step1.1.map Shape.sid
  let swept := link_sweep cfg.target_domain live step1.1 step1.2
  let rem2 := remove_shapes_by_id swept.1 swept.2.1
  (rem2.1,
    { swept.2.2 with
      shapes_removed := swept.2.2.shapes_removed + rem2.2 })

/-- `_process_shape_tree` (masters and layouts): delete every shape whose
own click link matches (counted as `shapes_removed`; the test itself
counts the link), otherwise strip matching run hyperlinks from its text
frame (counted as `links_removed`). -/
def process_shape_tree (t : String) :
    List Shape → Counters → List Shape × Counters
  | [], c => ([], c)
  | s :: rest, c =>
    let (hit, c1) := shape_has_target_link t s c
    if hit then
      process_shape_tree t rest
        { c1 with shapes_removed := c1.shapes_removed + 1 }
    else
      match s.textFrame with
      | some tf =>
        let (tf', n) := strip_text_run_links t tf
        let (rest', c2) := process_shape_tree t rest
          { c1 with links_removed := c1.links_removed + n }
        (s.withTextFrame (some tf') :: rest', c2)
      | none =>
        let (rest', c2) := process_shape_tree t rest c1
        (s :: rest', c2)

/-- The loop over slide masters and slide layouts in
`clean_pptx_from_target_domain`. -/
def process_containers (t : String) :
    List (List Shape) → Counters → List (List Shape) × Counters
  | [], c => ([], c)
  | sh :: rest, c =>
    let h := process_shape_tree t sh c
    let r := process_containers t rest h.2
    (h.1 :: r.1, r.2)

/-- The loop over slides in `clean_pptx_from_target_domain`. -/
def process_slides (cfg : Config) (sw sh : ℚ) :
    List (List Shape) → Counters → List (List Shape) × Counters
  | [], c => ([], c)
  | sl :: rest, c =>
    let h := process_slide cfg sw sh sl c
    let r := process_slides cfg sw sh rest h.2
    (h.1 :: r.1, r.2)

/-- `clean_pptx_from_target_domain` on the opened document: masters
first, then layouts, then slides, mutating the instance counters. -/
def clean (cfg : Config) (d : Document) (c : Counters) :
    Document × Counters :=
  let m := process_containers cfg.target_domain d.masters c
  let ly := process_containers cfg.target_domain d.layouts m.2
  let sl := process_slides cfg d.slideWidth d.slideHeight d.slides ly.2
  ({ d with masters := m.1, layouts := ly.1, slides := sl.1 }, sl.2)

/-- The value returned by `clean_pptx_from_target_domain`:
`(self.shapes_removed, self.links_removed, self.corner_images_removed)`
— the instance counters as they stand after this call. -/
def clean_result (cfg : Config) (d : Document) (c : Counters) :
    Nat × Nat × Nat :=
  let (_, c') := clean cfg d c
  (c'.shapes_removed, c'.links_removed, c'.corner_images_removed)

/-!  Helper notions used to state and prove the properties.  These are
not part of the embedding of the source; they name values the source
computes along the way. -/

/-- The Boolean decision taken by `_shape_has_target_link`: the shape's
click-action access does not raise and its address contains the target. -/
def hitTest (t : String) (s : Shape) : Bool :=
  !s.clickRaises && addrMatches t s.clickLink

/-- A shape the corner sweep considers: a Picture lying in the corner
region. -/
def isCornerPic (right_edge bottom_edge : ℚ) (s : Shape) : Bool :=
  s.isPicture && is_in_corner s right_edge bottom_edge

/-- How the link sweep leaves a shape in place: untouched when its own
click link matches (it is deleted afterwards by identity) or has no text
frame, with its text frame stripped otherwise. -/
def sweepShape (t : String) (s : Shape) : Shape :=
  if hitTest t s then s
  else
    match s.textFrame with
    | some tf => s.withTextFrame (some (strip_text_run_links t tf).1)
    | none => s

/-- Links counted while the link sweep visits one shape: the click link
counted by `_shape_has_target_link` on a hit, else the stripped runs. -/
def sweepLinkCount (t : String) (s : Shape) : Nat :=
  if hitTest t s then 1
  else
    match s.textFrame with
    | some tf => (strip_text_run_links t tf).2
    | none => 0

/-- A top-level shape is clean: its click-hyperlink address (when its
click action is readable) does not contain the target, and no run of its
text frame has a hyperlink address containing the target. -/
def shapeCleanTL (t : String) (s : Shape) : Prop :=
  (s.clickRaises = false → addrMatches t s.clickLink = false) ∧
  (∀ tf, s.textFrame = some tf → ∀ p ∈ tf, ∀ r ∈ p,
    addrMatches t r.hyperlink = false)

/-- Two shapes agreeing on every field except possibly the text frame. -/
def sameButTF (s' s : Shape) : Prop :=
  s'.sid = s.sid ∧ s'.isPicture = s.isPicture ∧ s'.left = s.left ∧
  s'.top = s.top ∧ s'.clickRaises = s.clickRaises ∧
  s'.clickLink = s.clickLink ∧ s'.children = s.children

/-- Replace the member shapes of a shape, keeping every other field. -/
def Shape.setChildren : Shape → List Shape → Shape
  | .mk i p l t r a tf _, cs => .mk i p l t r a tf cs

/-- Componentwise addition of counter states. -/
def Counters.add (a b : Counters) : Counters :=
  ⟨a.links_removed + b.links_removed,
   a.shapes_removed + b.shapes_removed,
   a.corner_images_removed + b.corner_images_removed⟩

/-- The identities collected by the corner scan of a slide. -/
def cornerIds (cfg : Config) (sw sh : ℚ) (l : List Shape) : List Nat :=
  (l.filter (isCornerPic (ratMul sw cfg.corner_threshold)
    (ratMul sh cfg.corner_threshold))).map Shape.sid

/-- Whether some corner picture of the slide passes the link test. -/
def cornerTrigger (cfg : Config) (sw sh : ℚ) (l : List Shape) : Bool :=
  l.any (fun s =>
    isCornerPic (ratMul sw cfg.corner_threshold)
      (ratMul sh cfg.corner_threshold) s && hitTest cfg.target_domain s)

/-- The slide's shapes once the corner sweep has run. -/
def postCorner (cfg : Config) (sw sh : ℚ) (l : List Shape) : List Shape :=
  if cornerTrigger cfg sw sh l then
    l.filter (fun s => !(cornerIds cfg sw sh l).contains s.sid)
  else l

/-- The identities the link sweep collects for removal. -/
def hitIds (cfg : Config) (sw sh : ℚ) (l : List Shape) : List Nat :=
  ((postCorner cfg sw sh l).filter (hitTest cfg.target_domain)).map
    Shape.sid

/-- The shapes a master or layout keeps after `_process_shape_tree`. -/
def treeShapes (t : String) (l : List Shape) : List Shape :=
  l.filterMap
    (fun s => if hitTest t s then none else some (sweepShape t s))

/-- Links counted while `_process_shape_tree` visits a container. -/
def treeLinkCount (t : String) (l : List Shape) : Nat :=
  (l.map (sweepLinkCount t)).sum

/-- Shapes `_process_shape_tree` deletes from a container. -/
def treeHitCount (t : String) (l : List Shape) : Nat :=
  l.countP (hitTest t)

/-- The shapes a slide keeps after `_process_slide`. -/
def slideShapes (cfg : Config) (sw sh : ℚ) (l : List Shape) :
    List Shape :=
  ((postCorner cfg sw sh l).map (sweepShape cfg.target_domain)).filter
    (fun s' => !(hitIds cfg sw sh l).contains s'.sid)

/-- Corner pictures of the slide whose click link passes the test. -/
def slideCornerHitCount (cfg : Config) (sw sh : ℚ) (l : List Shape) :
    Nat :=
  l.countP (fun s =>
    isCornerPic (ratMul sw cfg.corner_threshold)
      (ratMul sh cfg.corner_threshold) s && hitTest cfg.target_domain s)

/-- Links counted while `_process_slide` runs on a slide. -/
def slideLinkCount (cfg : Config) (sw sh : ℚ) (l : List Shape) : Nat :=
  slideCornerHitCount cfg sw sh l +
    ((postCorner cfg sw sh l).map (sweepLinkCount cfg.target_domain)).sum

/-- Shapes the link sweep of `_process_slide` deletes. -/
def slideHitRemovedCount (cfg : Config) (sw sh : ℚ) (l : List Shape) :
    Nat :=
  ((postCorner cfg sw sh l).map (sweepShape cfg.target_domain)).countP
    (fun s' => (hitIds cfg sw sh l).contains s'.sid)

/-- Corner pictures the corner sweep of `_process_slide` deletes. -/
def slideCornerRemovedCount (cfg : Config) (sw sh : ℚ) (l : List Shape) :
    Nat :=
  if cornerTrigger cfg sw sh l then
    l.countP (fun s => (cornerIds cfg sw sh l).contains s.sid)
  else 0

/-!  Concrete configurations and documents used to witness or refute
individual properties.  All use the default configuration
(`target_domain="gamma.app"`, `corner_threshold=0.7`) and a 10×10 slide
size. -/

/-- The default configuration, as built by `__init__`. -/
def cfgDefault : Config := (remover_init "gamma.app" (mkRat 7 10)).1

/-- A nested shape (a group member) whose run hyperlink matches. -/
def childC1 : Shape :=
  .mk 10 false none none false none
    (some [[⟨"Made with Gamma", some "https://gamma.app/referral"⟩]]) []

/-- A group shape with no click link of its own, holding `childC1`. -/
def grpC1 : Shape := .mk 1 false none none false none none [childC1]

/-- A shape whose click-action access raises, with a matching address. -/
def raiseC1 : Shape :=
  .mk 2 false none none true (some "https://gamma.app/present") none []

/-- One slide holding the group and the raising shape. -/
def docC1 : Document :=
  ⟨mkRat 10 1, mkRat 10 1, [], [], [[grpC1, raiseC1]]⟩

/-- A corner picture with no hyperlink. -/
def p1W2 : Shape :=
  .mk 1 true (some (mkRat 8 1)) (some (mkRat 9 1)) false none none []

/-- A corner picture whose click link matches. -/
def p2W2 : Shape :=
  .mk 2 true (some (mkRat 7 1)) (some (mkRat 7 1)) false
    (some "https://gamma.app/x") none []

/-- A slide with two corner pictures, one of them linked. -/
def slideW2 : List Shape := [p1W2, p2W2]

/-- A non-picture shape whose click link matches. -/
def shpC3 : Shape :=
  .mk 1 false none none false (some "https://gamma.app/present") none []

/-- One slide holding only `shpC3`. -/
def docC3 : Document := ⟨mkRat 10 1, mkRat 10 1, [], [], [[shpC3]]⟩

/-- A shape with a run-level matching hyperlink but no click link. -/
def shpW6 : Shape :=
  .mk 4 false none none false none
    (some [[⟨"visit", some "https://gamma.app/site"⟩]]) []

/-- A corner picture whose click-action access raises. -/
def p1C7 : Shape :=
  .mk 1 true (some (mkRat 8 1)) (some (mkRat 8 1)) true
    (some "https://gamma.app/a") none []

/-- A corner picture whose click link matches (readable). -/
def p2C7 : Shape :=
  .mk 2 true (some (mkRat 9 1)) (some (mkRat 9 1)) false
    (some "https://gamma.app/b") none []

/-- One slide holding the two corner pictures. -/
def docC7 : Document := ⟨mkRat 10 1, mkRat 10 1, [], [], [[p1C7, p2C7]]⟩

/-- A raising shape that is not a corner picture. -/
def sW7 : Shape :=
  .mk 1 false none none true (some "https://gamma.app/a") none []

/-- A slide holding only `sW7`. -/
def lW7 : List Shape := [sW7]

/-- A shape with a matching click link, deleted by the link sweep. -/
def shpC8 : Shape :=
  .mk 1 false none none false (some "https://gamma.app/present") none []

/-- One slide holding only `shpC8`. -/
def docC8 : Document := ⟨mkRat 10 1, mkRat 10 1, [], [], [[shpC8]]⟩

/-- A nested member of a group, with a matching run hyperlink. -/
def childC9 : Shape :=
  .mk 10 false none none false none
    (some [[⟨"promo", some "https://gamma.app/r"⟩]]) []

/-- A group shape whose own click link matches, holding `childC9`. -/
def grpC9 : Shape :=
  .mk 1 false none none false (some "https://gamma.app/group") none
    [childC9]

/-- One slide holding only the linked group. -/
def docC9 : Document := ⟨mkRat 10 1, mkRat 10 1, [], [], [[grpC9]]⟩

/-- A plain shape with children and no links, kept by `clean`. -/
def shpW9 : Shape := .mk 5 false none none false none none [childC9]

/-- One slide holding only `shpW9`. -/
def docW9 : Document := ⟨mkRat 10 1, mkRat 10 1, [], [], [[shpW9]]⟩

/-- A picture whose `left` read raises, with a matching click link. -/
def sW10 : Shape :=
  .mk 3 true none (some (mkRat 9 1)) false
    (some "https://gamma.app/x") none []

/-- A slide holding only `sW10`. -/
def lW10 : List Shape := [sW10]

/-!  Theorems. -/

/-- `ratMul` is ordinary multiplication on `ℚ`. -/
theorem ratMul_eq_mul (a b : ℚ) : ratMul a b = a * b := by
  rw [ratMul, Rat.mkRat_eq_div]
  push_cast
  rw [← div_mul_div_comm, Rat.num_div_den, Rat.num_div_den]

/-- `withTextFrame` keeps the identity. -/
theorem sid_withTextFrame (s : Shape) (tf : Option TextFrame) :
    (s.withTextFrame tf).sid = s.sid := by
  cases s; rfl

/-- `withTextFrame` sets the text frame. -/
theorem textFrame_withTextFrame (s : Shape) (tf : Option TextFrame) :
    (s.withTextFrame tf).textFrame = tf := by
  cases s; rfl

/-- Writing back a shape's own text frame changes nothing. -/
theorem withTextFrame_self (s : Shape) :
    s.withTextFrame s.textFrame = s := by
  cases s; rfl

/-- `withTextFrame` only touches the text frame. -/
theorem sameButTF_withTextFrame (s : Shape) (tf : Option TextFrame) :
    sameButTF (s.withTextFrame tf) s := by
  cases s
  exact ⟨rfl, rfl, rfl, rfl, rfl, rfl, rfl⟩

/-- `sameButTF` is reflexive. -/
theorem sameButTF_refl (s : Shape) : sameButTF s s :=
  ⟨rfl, rfl, rfl, rfl, rfl, rfl, rfl⟩

/-- What `_shape_has_target_link` computes: the `hitTest` Boolean, and a
`links_removed` increment exactly on a hit. -/
theorem shape_has_target_link_eq (t : String) (s : Shape) (c : Counters) :
    shape_has_target_link t s c =
      (hitTest t s,
        if hitTest t s then
          { c with links_removed := c.links_removed + 1 }
        else c) := by
  unfold shape_has_target_link hitTest
  cases h : s.clickRaises
  · cases h2 : addrMatches t s.clickLink <;> simp [h, h2]
  · simp [h]

/-- The count returned for one run: 1 exactly when the run's hyperlink
matches. -/
theorem strip_run_snd (t : String) (r : Run) :
    (strip_run t r).2 = if addrMatches t r.hyperlink then 1 else 0 := by
  unfold strip_run
  by_cases hm : addrMatches t r.hyperlink
  · by_cases hb : isBlank r.text <;> simp [hm, hb]
  · simp [hm]

/-- A surviving run produced by `strip_run` never carries a matching
hyperlink. -/
theorem strip_run_clean (t : String) (r r' : Run)
    (h : (strip_run t r).1 = some r') :
    addrMatches t r'.hyperlink = false := by
  unfold strip_run at h
  by_cases hm : addrMatches t r.hyperlink
  · simp only [hm, if_true] at h
    by_cases hb : isBlank r.text
    · simp [hb] at h
    · simp [hb] at h
      subst h
      rfl
  · simp only [hm] at h
    simp at h
    subst h
    simpa using hm

/-- A run whose hyperlink does not match is returned untouched. -/
theorem strip_run_noop (t : String) (r : Run)
    (h : addrMatches t r.hyperlink = false) :
    strip_run t r = (some r, 0) := by
  unfold strip_run
  simp [h]

/-- `strip_para` maps `strip_run` over the paragraph and counts the runs
whose hyperlink matches. -/
theorem strip_para_eq (t : String) (rs : List Run) :
    strip_para t rs =
      (rs.filterMap (fun r => (strip_run t r).1),
       rs.countP (fun r => addrMatches t r.hyperlink)) := by
  induction rs with
  | nil => simp [strip_para]
  | cons r rest ih =>
    rw [strip_para, ih]
    rcases h : strip_run t r with ⟨r?, n⟩
    have hn : n = if addrMatches t r.hyperlink then 1 else 0 := by
      have := strip_run_snd t r
      rw [h] at this
      exact this
    cases r? with
    | some r' =>
      simp only [List.filterMap_cons, h, List.countP_cons, hn,
        Prod.mk.injEq]
      exact ⟨trivial, Nat.add_comm _ _⟩
    | none =>
      simp only [List.filterMap_cons, h, List.countP_cons, hn,
        Prod.mk.injEq]
      exact ⟨trivial, Nat.add_comm _ _⟩

/-- `strip_text_run_links` strips each paragraph independently and sums
the per-paragraph counts. -/
theorem strip_tf_eq (t : String) (tf : TextFrame) :
    strip_text_run_links t tf =
      (tf.map (fun p => (strip_para t p).1),
       (tf.map (fun p => (strip_para t p).2)).sum) := by
  induction tf with
  | nil => rfl
  | cons p ps ih =>
    rcases hp : strip_para t p with ⟨p', n⟩
    rw [strip_text_run_links, hp, ih]
    simp [hp]

/-- No run surviving `strip_para` has a matching hyperlink. -/
theorem strip_para_clean (t : String) (rs : List Run) :
    ∀ r' ∈ (strip_para t rs).1, addrMatches t r'.hyperlink = false := by
  rw [strip_para_eq]
  intro r' hr'
  simp only [List.mem_filterMap] at hr'
  obtain ⟨r, _, h⟩ := hr'
  exact strip_run_clean t r r' h

/-- A paragraph with no matching run is returned untouched. -/
theorem strip_para_noop (t : String) (rs : List Run)
    (h : ∀ r ∈ rs, addrMatches t r.hyperlink = false) :
    strip_para t rs = (rs, 0) := by
  induction rs with
  | nil => rfl
  | cons r rest ih =>
    have h1 : strip_run t r = (some r, 0) :=
      strip_run_noop t r (h r (by simp))
    have h2 : strip_para t rest = (rest, 0) :=
      ih (fun r' h' => h r' (by simp [h']))
    rw [strip_para, h1, h2]

/-- No run surviving `_strip_text_run_links` has a matching hyperlink. -/
theorem strip_tf_clean (t : String) (tf : TextFrame) :
    ∀ p ∈ (strip_text_run_links t tf).1, ∀ r ∈ p,
      addrMatches t r.hyperlink = false := by
  rw [strip_tf_eq]
  intro p hp r hr
  simp only [List.mem_map] at hp
  obtain ⟨p0, _, hp0⟩ := hp
  exact strip_para_clean t p0 r (hp0 ▸ hr)

/-- A text frame with no matching run is returned untouched, with a zero
count. -/
theorem strip_tf_noop (t : String) (tf : TextFrame)
    (h : ∀ p ∈ tf, ∀ r ∈ p, addrMatches t r.hyperlink = false) :
    strip_text_run_links t tf = (tf, 0) := by
  induction tf with
  | nil => rfl
  | cons p ps ih =>
    have h1 : strip_para t p = (p, 0) := strip_para_noop t p (h p (by simp))
    have h2 : strip_text_run_links t ps = (ps, 0) :=
      ih (fun p' h' => h p' (by simp [h']))
    rw [strip_text_run_links, h1, h2]

/-- `_remove_shapes_by_id` keeps exactly the shapes whose identity is not
listed and counts the rest. -/
theorem remove_shapes_by_id_eq (l : List Shape) (ids : List Nat) :
    remove_shapes_by_id l ids =
      (l.filter (fun s => !ids.contains s.sid),
       l.countP (fun s => ids.contains s.sid)) := by
  induction l with
  | nil => rfl
  | cons s rest ih =>
    rw [remove_shapes_by_id, ih]
    by_cases h : s.sid ∈ ids <;>
      simp [h, List.filter_cons, List.countP_cons]

/-- Removing an empty identity set changes nothing. -/
theorem remove_shapes_by_id_nil (l : List Shape) :
    remove_shapes_by_id l [] = (l, 0) := by
  rw [remove_shapes_by_id_eq]
  simp

/-- Step 1 of `_process_slide`: the collected identities are those of the
corner pictures, the flag says whether one of them passes the link test,
and `links_removed` grows by the number of corner pictures whose click
link matches. -/
theorem corner_scan_eq (t : String) (re be : ℚ) (l : List Shape)
    (c : Counters) :
    corner_scan t re be l c =
      ((l.filter (isCornerPic re be)).map Shape.sid,
       l.any (fun s => isCornerPic re be s && hitTest t s),
       { c with links_removed :=
          c.links_removed +
            l.countP (fun s => isCornerPic re be s && hitTest t s) }) := by
  induction l generalizing c with
  | nil => simp [corner_scan]
  | cons s rest ih =>
    by_cases h : isCornerPic re be s
    · rw [corner_scan, shape_has_target_link_eq]
      have hg : (s.isPicture && is_in_corner s re be) = true := h
      rw [hg]
      by_cases hh : hitTest t s
      · simp only [hh, if_true, ih, if_true]
        simp [List.filter_cons, List.countP_cons, h, hh]
        omega
      · simp only [hh, if_false, Bool.false_eq_true, ite_false, ih]
        simp [List.filter_cons, List.countP_cons, h, hh]
    · rw [corner_scan]
      have hg : (s.isPicture && is_in_corner s re be) = false := by
        simpa [isCornerPic] using h
      rw [hg]
      simp only [Bool.false_eq_true, ite_false, ih]
      simp [List.filter_cons, List.countP_cons, h]

/-- Steps 2–3 of `_process_slide`, for a snapshot whose identities are
all among the live identities (which is how `_process_slide` calls it):
every shape is visited; the shapes are left in place with stripped text
frames, the identities collected for removal are those of the shapes
whose own click link matches, and `links_removed` grows by one per hit
plus the number of stripped runs. -/
theorem link_sweep_eq (t : String) (live : List Nat) (l : List Shape)
    (c : Counters) (h : ∀ s ∈ l, live.contains s.sid = true) :
    link_sweep t live l c =
      (l.map (sweepShape t),
       (l.filter (hitTest t)).map Shape.sid,
       { c with links_removed :=
          c.links_removed + (l.map (sweepLinkCount t)).sum }) := by
  induction l generalizing c with
  | nil => simp [link_sweep]
  | cons s rest ih =>
    have hs : live.contains s.sid = true := h s (by simp)
    have hrest : ∀ s' ∈ rest, live.contains s'.sid = true :=
      fun s' h' => h s' (by simp [h'])
    rw [link_sweep, hs, shape_has_target_link_eq]
    by_cases hh : hitTest t s
    · simp only [hh, if_true, ih _ hrest]
      simp [sweepShape, sweepLinkCount, hh, List.filter_cons]
      omega
    · simp only [hh, Bool.false_eq_true, ite_false, if_false]
      cases htf : s.textFrame with
      | some tf =>
        simp only [ih _ hrest]
        simp [sweepShape, sweepLinkCount, hh, htf, List.filter_cons]
        omega
      | none =>
        simp only [ih _ hrest]
        simp [sweepShape, sweepLinkCount, hh, htf, List.filter_cons]

/-- `_process_shape_tree` deletes exactly the shapes whose own click link
matches, strips the text frames of the rest, counts the deleted shapes in
`shapes_removed` and the links (one per deleted shape, plus stripped
runs) in `links_removed`. -/
theorem process_shape_tree_eq (t : String) (l : List Shape)
    (c : Counters) :
    process_shape_tree t l c =
      (l.filterMap
        (fun s => if hitTest t s then none else some (sweepShape t s)),
       { c with
          links_removed :=
            c.links_removed + (l.map (sweepLinkCount t)).sum,
          shapes_removed :=
            c.shapes_removed + l.countP (hitTest t) }) := by
  induction l generalizing c with
  | nil => simp [process_shape_tree]
  | cons s rest ih =>
    rw [process_shape_tree, shape_has_target_link_eq]
    by_cases hh : hitTest t s
    · simp only [hh, if_true, ih]
      simp [sweepLinkCount, hh, List.countP_cons, List.filterMap_cons]
      constructor <;> omega
    · simp only [hh, Bool.false_eq_true, ite_false, if_false]
      cases htf : s.textFrame with
      | some tf =>
        simp only [ih]
        simp [sweepShape, sweepLinkCount, hh, htf, List.countP_cons,
          List.filterMap_cons]
        omega
      | none =>
        simp only [ih]
        simp [sweepShape, sweepLinkCount, hh, htf, List.countP_cons,
          List.filterMap_cons]

/-- `hitTest` only reads fields that `sameButTF` preserves. -/
theorem hitTest_congr (t : String) {s' s : Shape} (h : sameButTF s' s) :
    hitTest t s' = hitTest t s := by
  unfold hitTest
  rw [h.2.2.2.2.1, h.2.2.2.2.2.1]

/-- `isCornerPic` only reads fields that `sameButTF` preserves. -/
theorem isCornerPic_congr (re be : ℚ) {s' s : Shape} (h : sameButTF s' s) :
    isCornerPic re be s' = isCornerPic re be s := by
  unfold isCornerPic is_in_corner
  rw [h.2.1, h.2.2.1, h.2.2.2.1]

/-- The link sweep leaves a shape's fields other than the text frame
untouched. -/
theorem sweepShape_sameButTF (t : String) (s : Shape) :
    sameButTF (sweepShape t s) s := by
  unfold sweepShape
  by_cases hh : hitTest t s
  · simp only [hh, if_true]
    exact sameButTF_refl s
  · simp only [hh, Bool.false_eq_true, ite_false]
    cases htf : s.textFrame with
    | some tf => exact sameButTF_withTextFrame s _
    | none => exact sameButTF_refl s

/-- The link sweep preserves shape identity. -/
theorem sid_sweepShape (t : String) (s : Shape) :
    (sweepShape t s).sid = s.sid :=
  (sweepShape_sameButTF t s).1

/-- The link sweep does not change the outcome of the hit test. -/
theorem hitTest_sweepShape (t : String) (s : Shape) :
    hitTest t (sweepShape t s) = hitTest t s :=
  hitTest_congr t (sweepShape_sameButTF t s)

/-- A clean shape never passes the hit test. -/
theorem shapeCleanTL_hitTest (t : String) {s : Shape}
    (h : shapeCleanTL t s) : hitTest t s = false := by
  unfold hitTest
  cases hr : s.clickRaises with
  | true => simp
  | false => simp [h.1 hr]

/-- A missed shape becomes clean once its text frame is stripped. -/
theorem sweepShape_clean (t : String) {s : Shape}
    (h : hitTest t s = false) : shapeCleanTL t (sweepShape t s) := by
  unfold sweepShape
  simp only [h, Bool.false_eq_true, ite_false]
  cases htf : s.textFrame with
  | some tf =>
    constructor
    · intro hr
      have hr' : s.clickRaises = false := by
        have := (sameButTF_withTextFrame s
          (some (strip_text_run_links t tf).1)).2.2.2.2.1
        rw [this] at hr
        exact hr
      have hcl : (s.withTextFrame
          (some (strip_text_run_links t tf).1)).clickLink = s.clickLink :=
        (sameButTF_withTextFrame s _).2.2.2.2.2.1
      rw [hcl]
      unfold hitTest at h
      simpa [hr'] using h
    · intro tf' htf' p hp r hr
      rw [textFrame_withTextFrame] at htf'
      cases htf'
      exact strip_tf_clean t tf p hp r hr
  | none =>
    constructor
    · intro hr
      unfold hitTest at h
      simpa [hr] using h
    · intro tf' htf' p hp r hr
      rw [htf] at htf'
      cases htf'

/-- Stripping a clean shape changes nothing. -/
theorem sweepShape_noop (t : String) {s : Shape}
    (h : shapeCleanTL t s) : sweepShape t s = s := by
  unfold sweepShape
  simp only [shapeCleanTL_hitTest t h, Bool.false_eq_true, ite_false]
  cases htf : s.textFrame with
  | some tf =>
    simp only [strip_tf_noop t tf (h.2 tf htf)]
    rw [← htf, withTextFrame_self]
  | none => rfl

/-- A clean shape contributes no link count to the sweep. -/
theorem sweepLinkCount_clean (t : String) {s : Shape}
    (h : shapeCleanTL t s) : sweepLinkCount t s = 0 := by
  unfold sweepLinkCount
  simp only [shapeCleanTL_hitTest t h, Bool.false_eq_true, ite_false]
  cases htf : s.textFrame with
  | some tf => simp only [strip_tf_noop t tf (h.2 tf htf)]
  | none => rfl

/-- Membership gives a positive `contains` over the projected identities. -/
theorem contains_map_sid {l : List Shape} {s : Shape} (hs : s ∈ l) :
    (l.map Shape.sid).contains s.sid = true :=
  List.elem_eq_true_of_mem (List.mem_map_of_mem Shape.sid hs)

/-- Full characterization of `_process_slide`: the surviving shapes are
the post-corner shapes, text frames stripped, minus the shapes whose own
click link matched; the counters grow by the corner hits, the sweep's
link counts, the link-sweep removals and the corner removals. -/
theorem process_slide_eq (cfg : Config) (sw sh : ℚ) (l : List Shape)
    (c : Counters) :
    process_slide cfg sw sh l c =
      (((postCorner cfg sw sh l).map (sweepShape cfg.target_domain)).filter
         (fun s' => !(hitIds cfg sw sh l).contains s'.sid),
       { links_removed := c.links_removed
           + l.countP (fun s =>
              isCornerPic (ratMul sw cfg.corner_threshold)
                (ratMul sh cfg.corner_threshold) s &&
                hitTest cfg.target_domain s)
           + ((postCorner cfg sw sh l).map
              (sweepLinkCount cfg.target_domain)).sum,
         shapes_removed := c.shapes_removed
           + ((postCorner cfg sw sh l).map
              (sweepShape cfg.target_domain)).countP
              (fun s' => (hitIds cfg sw sh l).contains s'.sid),
         corner_images_removed := c.corner_images_removed
           + (if cornerTrigger cfg sw sh l then
               l.countP (fun s => (cornerIds cfg sw sh l).contains s.sid)
              else 0) }) := by
  unfold process_slide hitIds postCorner cornerIds cornerTrigger
  dsimp only
  rw [corner_scan_eq]
  dsimp only
  by_cases hA' :
      (l.any (fun s =>
        isCornerPic (ratMul sw cfg.corner_threshold)
          (ratMul sh cfg.corner_threshold) s &&
          hitTest cfg.target_domain s)) = true
  · simp only [hA', eq_self_iff_true, if_true, remove_shapes_by_id_eq]
    rw [link_sweep_eq cfg.target_domain _ _ _
      (fun s hs => contains_map_sid hs)]
  · have hA2 :
        (l.any (fun s =>
          isCornerPic (ratMul sw cfg.corner_threshold)
            (ratMul sh cfg.corner_threshold) s &&
            hitTest cfg.target_domain s)) = false := by
      rw [← Bool.not_eq_true]
      exact hA'
    simp only [hA2, Bool.false_eq_true, if_false, remove_shapes_by_id_eq]
    rw [link_sweep_eq cfg.target_domain _ _ _
      (fun s hs => contains_map_sid hs)]
    simp only [remove_shapes_by_id_eq]
    simp

/-- Every shape surviving `_process_slide` is a swept copy of a shape of
the slide whose own click link did not match. -/
theorem process_slide_mem (cfg : Config) (sw sh : ℚ) (l : List Shape)
    (c : Counters) :
    ∀ s' ∈ (process_slide cfg sw sh l c).1, ∃ s ∈ l,
      s' = sweepShape cfg.target_domain s ∧
      hitTest cfg.target_domain s = false := by
  intro s' hs'
  rw [process_slide_eq] at hs'
  simp only [List.mem_filter, List.mem_map] at hs'
  obtain ⟨⟨s, hsPC, rfl⟩, hNot⟩ := hs'
  have hsl : s ∈ l := by
    unfold postCorner at hsPC
    by_cases hA : cornerTrigger cfg sw sh l
    · rw [if_pos hA] at hsPC
      exact (List.mem_filter.mp hsPC).1
    · rw [if_neg hA] at hsPC
      exact hsPC
  refine ⟨s, hsl, rfl, ?_⟩
  by_contra hHit
  rw [Bool.not_eq_false] at hHit
  have hmem : s.sid ∈ hitIds cfg sw sh l := by
    unfold hitIds
    exact List.mem_map_of_mem Shape.sid
      (List.mem_filter.mpr ⟨hsPC, hHit⟩)
  have : (hitIds cfg sw sh l).contains (sweepShape cfg.target_domain s).sid
      = true := by
    rw [sid_sweepShape]
    exact List.elem_eq_true_of_mem hmem
  rw [this] at hNot
  exact absurd hNot (by simp)

/-- After `_process_slide`, every surviving shape is clean: its readable
click link does not match and none of its runs matches. -/
theorem process_slide_clean (cfg : Config) (sw sh : ℚ) (l : List Shape)
    (c : Counters) :
    ∀ s' ∈ (process_slide cfg sw sh l c).1,
      shapeCleanTL cfg.target_domain s' := by
  intro s' hs'
  obtain ⟨s, _, rfl, hmiss⟩ := process_slide_mem cfg sw sh l c s' hs'
  exact sweepShape_clean cfg.target_domain hmiss

/-- `_process_slide` leaves a slide of clean shapes untouched and adds
nothing to the counters. -/
theorem process_slide_fix (cfg : Config) (sw sh : ℚ) (l : List Shape)
    (c : Counters) (h : ∀ s ∈ l, shapeCleanTL cfg.target_domain s) :
    process_slide cfg sw sh l c = (l, c) := by
  rw [process_slide_eq]
  have hhit : ∀ s ∈ l, hitTest cfg.target_domain s = false :=
    fun s hs => shapeCleanTL_hitTest cfg.target_domain (h s hs)
  have hTrig : cornerTrigger cfg sw sh l = false := by
    unfold cornerTrigger
    rw [List.any_eq_false]
    intro s hs
    simp [hhit s hs]
  have hPC : postCorner cfg sw sh l = l := by
    unfold postCorner
    rw [hTrig]
    simp
  have hHitIds : hitIds cfg sw sh l = [] := by
    unfold hitIds
    rw [hPC]
    have : l.filter (hitTest cfg.target_domain) = [] := by
      rw [List.filter_eq_nil_iff]
      intro s hs
      simp [hhit s hs]
    rw [this]
    rfl
  have hCnt : l.countP (fun s =>
      isCornerPic (ratMul sw cfg.corner_threshold)
        (ratMul sh cfg.corner_threshold) s &&
        hitTest cfg.target_domain s) = 0 := by
    rw [List.countP_eq_zero]
    intro s hs
    simp [hhit s hs]
  have hMap : l.map (sweepShape cfg.target_domain) = l := by
    conv_rhs => rw [← List.map_id l]
    exact List.map_congr_left
      (fun s hs => sweepShape_noop cfg.target_domain (h s hs))
  have hSum : (l.map (sweepLinkCount cfg.target_domain)).sum = 0 := by
    rw [List.sum_eq_zero]
    intro n hn
    obtain ⟨s, hs, rfl⟩ := List.mem_map.mp hn
    exact sweepLinkCount_clean cfg.target_domain (h s hs)
  rw [hPC, hHitIds, hCnt, hMap, hSum, hTrig]
  simp

/-- Every shape surviving `_process_shape_tree` is a swept copy of a
shape of the container whose own click link did not match. -/
theorem process_shape_tree_mem (t : String) (l : List Shape)
    (c : Counters) :
    ∀ s' ∈ (process_shape_tree t l c).1, ∃ s ∈ l,
      s' = sweepShape t s ∧ hitTest t s = false := by
  intro s' hs'
  rw [process_shape_tree_eq] at hs'
  simp only [List.mem_filterMap] at hs'
  obtain ⟨s, hsl, hopt⟩ := hs'
  by_cases hh : hitTest t s
  · rw [if_pos hh] at hopt
    cases hopt
  · rw [if_neg hh] at hopt
    cases hopt
    exact ⟨s, hsl, rfl, Bool.not_eq_true _ ▸ hh⟩

/-- After `_process_shape_tree`, every surviving shape is clean. -/
theorem process_shape_tree_clean (t : String) (l : List Shape)
    (c : Counters) :
    ∀ s' ∈ (process_shape_tree t l c).1, shapeCleanTL t s' := by
  intro s' hs'
  obtain ⟨s, _, rfl, hmiss⟩ := process_shape_tree_mem t l c s' hs'
  exact sweepShape_clean t hmiss

/-- `_process_shape_tree` leaves a container of clean shapes untouched
and adds nothing to the counters. -/
theorem process_shape_tree_fix (t : String) (l : List Shape)
    (c : Counters) (h : ∀ s ∈ l, shapeCleanTL t s) :
    process_shape_tree t l c = (l, c) := by
  rw [process_shape_tree_eq]
  have hhit : ∀ s ∈ l, hitTest t s = false :=
    fun s hs => shapeCleanTL_hitTest t (h s hs)
  have hFM : l.filterMap
      (fun s => if hitTest t s then none else some (sweepShape t s)) =
      l := by
    induction l with
    | nil => rfl
    | cons s rest ih =>
      rw [List.filterMap_cons]
      rw [if_neg (by simp [hhit s (by simp)])]
      rw [sweepShape_noop t (h s (by simp))]
      rw [ih (fun s' hs' => h s' (by simp [hs']))
        (fun s' hs' => hhit s' (by simp [hs']))]
  have hSum : (l.map (sweepLinkCount t)).sum = 0 := by
    rw [List.sum_eq_zero]
    intro n hn
    obtain ⟨s, hs, rfl⟩ := List.mem_map.mp hn
    exact sweepLinkCount_clean t (h s hs)
  have hCnt : l.countP (hitTest t) = 0 := by
    rw [List.countP_eq_zero]
    intro s hs
    simp [hhit s hs]
  rw [hFM, hSum, hCnt]
  simp

/-- `_process_slide` in terms of the named slide quantities. -/
theorem process_slide_eq2 (cfg : Config) (sw sh : ℚ) (l : List Shape)
    (c : Counters) :
    process_slide cfg sw sh l c =
      (slideShapes cfg sw sh l,
       ⟨c.links_removed + slideLinkCount cfg sw sh l,
        c.shapes_removed + slideHitRemovedCount cfg sw sh l,
        c.corner_images_removed + slideCornerRemovedCount cfg sw sh l⟩) := by
  rw [process_slide_eq]
  unfold slideShapes slideLinkCount slideCornerHitCount
    slideHitRemovedCount slideCornerRemovedCount
  simp [Nat.add_assoc]

/-- `_process_shape_tree` in terms of the named container quantities. -/
theorem process_shape_tree_eq2 (t : String) (l : List Shape)
    (c : Counters) :
    process_shape_tree t l c =
      (treeShapes t l,
       ⟨c.links_removed + treeLinkCount t l,
        c.shapes_removed + treeHitCount t l,
        c.corner_images_removed⟩) := by
  rw [process_shape_tree_eq]
  unfold treeShapes treeLinkCount treeHitCount
  rfl

/-- The masters-and-layouts loop processes each container independently and sums
the counter deltas. -/
theorem process_containers_eq (t : String) (L : List (List Shape))
    (c : Counters) :
    process_containers t L c =
      (L.map (treeShapes t),
       ⟨c.links_removed + (L.map (treeLinkCount t)).sum,
        c.shapes_removed + (L.map (treeHitCount t)).sum,
        c.corner_images_removed⟩) := by
  induction L generalizing c with
  | nil => simp [process_containers]
  | cons l rest ih =>
    rw [process_containers]
    rw [process_shape_tree_eq2, ih]
    simp [Nat.add_assoc]

/-- The slides loop processes each slide independently and sums the
counter deltas. -/
theorem process_slides_eq (cfg : Config) (sw sh : ℚ)
    (L : List (List Shape)) (c : Counters) :
    process_slides cfg sw sh L c =
      (L.map (slideShapes cfg sw sh),
       ⟨c.links_removed + (L.map (slideLinkCount cfg sw sh)).sum,
        c.shapes_removed + (L.map (slideHitRemovedCount cfg sw sh)).sum,
        c.corner_images_removed +
          (L.map (slideCornerRemovedCount cfg sw sh)).sum⟩) := by
  induction L generalizing c with
  | nil => simp [process_slides]
  | cons l rest ih =>
    rw [process_slides]
    rw [process_slide_eq2, ih]
    simp [Nat.add_assoc]

/-- `clean_pptx_from_target_domain`, fully characterized: each container
is processed independently and the instance counters grow by the summed
deltas. -/
theorem clean_eq (cfg : Config) (d : Document) (c : Counters) :
    clean cfg d c =
      ({ d with
          masters := d.masters.map (treeShapes cfg.target_domain),
          layouts := d.layouts.map (treeShapes cfg.target_domain),
          slides := d.slides.map
            (slideShapes cfg d.slideWidth d.slideHeight) },
       ⟨c.links_removed
          + (d.masters.map (treeLinkCount cfg.target_domain)).sum
          + (d.layouts.map (treeLinkCount cfg.target_domain)).sum
          + (d.slides.map
              (slideLinkCount cfg d.slideWidth d.slideHeight)).sum,
        c.shapes_removed
          + (d.masters.map (treeHitCount cfg.target_domain)).sum
          + (d.layouts.map (treeHitCount cfg.target_domain)).sum
          + (d.slides.map
              (slideHitRemovedCount cfg d.slideWidth d.slideHeight)).sum,
        c.corner_images_removed
          + (d.slides.map
              (slideCornerRemovedCount cfg d.slideWidth
                d.slideHeight)).sum⟩) := by
  unfold clean
  dsimp only
  rw [process_containers_eq, process_containers_eq, process_slides_eq]

/-- Shapes kept by a master/layout pass come from the container. -/
theorem mem_treeShapes (t : String) (l : List Shape) :
    ∀ s' ∈ treeShapes t l, ∃ s ∈ l,
      s' = sweepShape t s ∧ hitTest t s = false := by
  have h := process_shape_tree_mem t l ⟨0, 0, 0⟩
  rw [process_shape_tree_eq2] at h
  exact h

/-- Shapes kept by a slide pass come from the slide. -/
theorem mem_slideShapes (cfg : Config) (sw sh : ℚ) (l : List Shape) :
    ∀ s' ∈ slideShapes cfg sw sh l, ∃ s ∈ l,
      s' = sweepShape cfg.target_domain s ∧
      hitTest cfg.target_domain s = false := by
  have h := process_slide_mem cfg sw sh l ⟨0, 0, 0⟩
  rw [process_slide_eq2] at h
  exact h

/-- Shapes kept by a master/layout pass are clean. -/
theorem mem_treeShapes_clean (t : String) (l : List Shape) :
    ∀ s' ∈ treeShapes t l, shapeCleanTL t s' := by
  intro s' hs'
  obtain ⟨s, _, rfl, hmiss⟩ := mem_treeShapes t l s' hs'
  exact sweepShape_clean t hmiss

/-- Shapes kept by a slide pass are clean. -/
theorem mem_slideShapes_clean (cfg : Config) (sw sh : ℚ)
    (l : List Shape) :
    ∀ s' ∈ slideShapes cfg sw sh l, shapeCleanTL cfg.target_domain s' := by
  intro s' hs'
  obtain ⟨s, _, rfl, hmiss⟩ := mem_slideShapes cfg sw sh l s' hs'
  exact sweepShape_clean cfg.target_domain hmiss

/-- Every shape of every container of a cleaned document is clean. -/
theorem clean_output_clean (cfg : Config) (d : Document) (c : Counters) :
    (∀ l ∈ (clean cfg d c).1.masters, ∀ s ∈ l,
      shapeCleanTL cfg.target_domain s) ∧
    (∀ l ∈ (clean cfg d c).1.layouts, ∀ s ∈ l,
      shapeCleanTL cfg.target_domain s) ∧
    (∀ l ∈ (clean cfg d c).1.slides, ∀ s ∈ l,
      shapeCleanTL cfg.target_domain s) := by
  rw [clean_eq]
  refine ⟨?_, ?_, ?_⟩
  · intro l hl s hs
    obtain ⟨l0, _, rfl⟩ := List.mem_map.mp hl
    exact mem_treeShapes_clean cfg.target_domain l0 s hs
  · intro l hl s hs
    obtain ⟨l0, _, rfl⟩ := List.mem_map.mp hl
    exact mem_treeShapes_clean cfg.target_domain l0 s hs
  · intro l hl s hs
    obtain ⟨l0, _, rfl⟩ := List.mem_map.mp hl
    exact mem_slideShapes_clean cfg d.slideWidth d.slideHeight l0 s hs

/-- The masters-and-layouts loop is the identity on clean containers. -/
theorem process_containers_fix (t : String) (L : List (List Shape))
    (c : Counters) (h : ∀ l ∈ L, ∀ s ∈ l, shapeCleanTL t s) :
    process_containers t L c = (L, c) := by
  induction L generalizing c with
  | nil => rfl
  | cons l rest ih =>
    rw [process_containers]
    rw [process_shape_tree_fix t l c (h l (List.mem_cons_self _ _))]
    rw [ih _ (fun l' hl' => h l' (List.mem_cons_of_mem _ hl'))]

/-- The slides loop is the identity on clean slides. -/
theorem process_slides_fix (cfg : Config) (sw sh : ℚ)
    (L : List (List Shape)) (c : Counters)
    (h : ∀ l ∈ L, ∀ s ∈ l, shapeCleanTL cfg.target_domain s) :
    process_slides cfg sw sh L c = (L, c) := by
  induction L generalizing c with
  | nil => rfl
  | cons l rest ih =>
    rw [process_slides]
    rw [process_slide_fix cfg sw sh l c (h l (List.mem_cons_self _ _))]
    rw [ih _ (fun l' hl' => h l' (List.mem_cons_of_mem _ hl'))]

/-- `clean` is the identity (and counts nothing) on a document all of
whose containers are already clean. -/
theorem clean_fix (cfg : Config) (d : Document) (c : Counters)
    (h1 : ∀ l ∈ d.masters, ∀ s ∈ l, shapeCleanTL cfg.target_domain s)
    (h2 : ∀ l ∈ d.layouts, ∀ s ∈ l, shapeCleanTL cfg.target_domain s)
    (h3 : ∀ l ∈ d.slides, ∀ s ∈ l, shapeCleanTL cfg.target_domain s) :
    clean cfg d c = (d, c) := by
  unfold clean
  dsimp only
  rw [process_containers_fix cfg.target_domain d.masters c h1]
  rw [process_containers_fix cfg.target_domain d.layouts c h2]
  rw [process_slides_fix cfg d.slideWidth d.slideHeight d.slides c h3]

/-- With pairwise-distinct identities, identity determines the shape. -/
theorem sid_inj_of_nodup {l : List Shape}
    (hnd : (l.map Shape.sid).Nodup) {a b : Shape}
    (ha : a ∈ l) (hb : b ∈ l) (hab : a.sid = b.sid) : a = b :=
  List.inj_on_of_nodup_map hnd ha hb hab

/-- The corner sweep only ever discards shapes of the slide. -/
theorem mem_of_mem_postCorner {cfg : Config} {sw sh : ℚ}
    {l : List Shape} {s : Shape} (h : s ∈ postCorner cfg sw sh l) :
    s ∈ l := by
  unfold postCorner at h
  by_cases hA : cornerTrigger cfg sw sh l
  · rw [if_pos hA] at h
    exact (List.mem_filter.mp h).1
  · rw [if_neg hA] at h
    exact h

/-- A non-corner shape's identity is never collected by the corner
scan (assuming pairwise-distinct identities). -/
theorem cornerIds_contains_false {cfg : Config} {sw sh : ℚ}
    {l : List Shape} {s : Shape} (hnd : (l.map Shape.sid).Nodup)
    (hs : s ∈ l)
    (hnc : isCornerPic (ratMul sw cfg.corner_threshold)
      (ratMul sh cfg.corner_threshold) s = false) :
    (cornerIds cfg sw sh l).contains s.sid = false := by
  cases hc : (cornerIds cfg sw sh l).contains s.sid
  · rfl
  · exfalso
    have hmem := List.mem_of_elem_eq_true hc
    unfold cornerIds at hmem
    obtain ⟨u, hu, huid⟩ := List.mem_map.mp hmem
    obtain ⟨hul, hucp⟩ := List.mem_filter.mp hu
    have := sid_inj_of_nodup hnd hul hs huid
    rw [this] at hucp
    rw [hucp] at hnc
    exact absurd hnc (by simp)

/-- A shape that is not a corner picture (or whose slide has no linked
corner picture) survives the corner sweep. -/
theorem mem_postCorner {cfg : Config} {sw sh : ℚ}
    {l : List Shape} {s : Shape} (hnd : (l.map Shape.sid).Nodup)
    (hs : s ∈ l)
    (h : isCornerPic (ratMul sw cfg.corner_threshold)
      (ratMul sh cfg.corner_threshold) s = false ∨
      cornerTrigger cfg sw sh l = false) :
    s ∈ postCorner cfg sw sh l := by
  unfold postCorner
  by_cases hA : cornerTrigger cfg sw sh l
  · rw [if_pos hA]
    rcases h with hnc | hTrig
    · refine List.mem_filter.mpr ⟨hs, ?_⟩
      rw [cornerIds_contains_false hnd hs hnc]
      rfl
    · rw [hTrig] at hA
      exact absurd hA (by simp)
  · rw [if_neg hA]
    exact hs

/-- A shape whose own click link does not match is never collected by
the link sweep (assuming pairwise-distinct identities). -/
theorem hitIds_contains_false {cfg : Config} {sw sh : ℚ}
    {l : List Shape} {s : Shape} (hnd : (l.map Shape.sid).Nodup)
    (hs : s ∈ l) (hmiss : hitTest cfg.target_domain s = false) :
    (hitIds cfg sw sh l).contains s.sid = false := by
  cases hc : (hitIds cfg sw sh l).contains s.sid
  · rfl
  · exfalso
    have hmem := List.mem_of_elem_eq_true hc
    unfold hitIds at hmem
    obtain ⟨u, hu, huid⟩ := List.mem_map.mp hmem
    obtain ⟨hupc, huhit⟩ := List.mem_filter.mp hu
    have hul : u ∈ l := mem_of_mem_postCorner hupc
    have := sid_inj_of_nodup hnd hul hs huid
    rw [this] at huhit
    rw [huhit] at hmiss
    cases hmiss

/-- A shape with distinct identity that is neither corner-swept nor a
link hit keeps its identity in the slide's output. -/
theorem slide_sid_survives {cfg : Config} {sw sh : ℚ}
    {l : List Shape} {s : Shape} (c : Counters)
    (hnd : (l.map Shape.sid).Nodup) (hs : s ∈ l)
    (hnc : isCornerPic (ratMul sw cfg.corner_threshold)
      (ratMul sh cfg.corner_threshold) s = false ∨
      cornerTrigger cfg sw sh l = false)
    (hmiss : hitTest cfg.target_domain s = false) :
    s.sid ∈ ((process_slide cfg sw sh l c).1.map Shape.sid) := by
  rw [process_slide_eq2]
  unfold slideShapes
  have hpc : s ∈ postCorner cfg sw sh l := mem_postCorner hnd hs hnc
  have hmemMap : sweepShape cfg.target_domain s ∈
      (postCorner cfg sw sh l).map (sweepShape cfg.target_domain) :=
    List.mem_map_of_mem _ hpc
  have hkeep : sweepShape cfg.target_domain s ∈
      ((postCorner cfg sw sh l).map (sweepShape cfg.target_domain)).filter
        (fun s' => !(hitIds cfg sw sh l).contains s'.sid) := by
    refine List.mem_filter.mpr ⟨hmemMap, ?_⟩
    rw [sid_sweepShape]
    rw [hitIds_contains_false hnd hs hmiss]
    rfl
  have := List.mem_map_of_mem Shape.sid hkeep
  rw [sid_sweepShape] at this
  exact this

/-- Counting with pointwise-equal predicates gives equal counts. -/
theorem countP_congr_mem {α : Type} (l : List α) (p q : α → Bool)
    (h : ∀ a ∈ l, p a = q a) : l.countP p = l.countP q := by
  induction l with
  | nil => rfl
  | cons a rest ih =>
    rw [List.countP_cons, List.countP_cons,
      h a (List.mem_cons_self _ _),
      ih (fun b hb => h b (List.mem_cons_of_mem _ hb))]

/-- C1 (counterexample to the claim as stated): after `clean`, the
document still holds a Run whose hyperlink address contains the target
domain (inside a group member, which the pass never visits) and a Shape
whose click-hyperlink address contains the target domain (its click
action raises, so the test treats it as no match and retains it). -/
theorem C1_counterexample :
    (clean cfgDefault docC1 ⟨0, 0, 0⟩).1.slides = [[grpC1, raiseC1]] ∧
    grpC1.children = [childC1] ∧
    childC1.textFrame =
      some [[⟨"Made with Gamma", some "https://gamma.app/referral"⟩]] ∧
    addrMatches cfgDefault.target_domain
      (some "https://gamma.app/referral") = true ∧
    raiseC1.clickLink = some "https://gamma.app/present" ∧
    addrMatches cfgDefault.target_domain raiseC1.clickLink = true := by
  refine ⟨rfl, rfl, rfl, by decide, rfl, by decide⟩

/-- C1 (amended): after `clean` completes, every shape remaining in
the top-level shape collection of every master, layout and slide has no
readable click-hyperlink address containing the target domain, and no
run of such a shape's text frame has a hyperlink address containing the
target domain.  (Nested group members and shapes whose click-action
access raises are excluded: the pass never reads the former and treats
the latter as no match.) -/
theorem C1_theorem (cfg : Config) (d : Document) (c : Counters) :
    ∀ sl ∈ (clean cfg d c).1.masters ++ (clean cfg d c).1.layouts ++
        (clean cfg d c).1.slides,
      ∀ s ∈ sl,
        (s.clickRaises = false →
          addrMatches cfg.target_domain s.clickLink = false) ∧
        (∀ tf, s.textFrame = some tf → ∀ p ∈ tf, ∀ r ∈ p,
          addrMatches cfg.target_domain r.hyperlink = false) := by
  intro sl hsl s hs
  obtain ⟨h1, h2, h3⟩ := clean_output_clean cfg d c
  rcases List.mem_append.mp hsl with hsl' | hsl3
  · rcases List.mem_append.mp hsl' with hsl1 | hsl2
    · exact h1 sl hsl1 s hs
    · exact h2 sl hsl2 s hs
  · exact h3 sl hsl3 s hs

/-- C1 witness: the amended statement applied to the concrete cleaned
document `docC1`, at the retained raising shape. -/
theorem C1_witness :
    ([grpC1, raiseC1] ∈
      (clean cfgDefault docC1 ⟨0, 0, 0⟩).1.masters ++
      (clean cfgDefault docC1 ⟨0, 0, 0⟩).1.layouts ++
      (clean cfgDefault docC1 ⟨0, 0, 0⟩).1.slides) ∧
    raiseC1 ∈ [grpC1, raiseC1] ∧
    ((raiseC1.clickRaises = false →
      addrMatches cfgDefault.target_domain raiseC1.clickLink = false) ∧
     (∀ tf, raiseC1.textFrame = some tf → ∀ p ∈ tf, ∀ r ∈ p,
       addrMatches cfgDefault.target_domain r.hyperlink = false)) := by
  have h1 : [grpC1, raiseC1] ∈
      (clean cfgDefault docC1 ⟨0, 0, 0⟩).1.masters ++
      (clean cfgDefault docC1 ⟨0, 0, 0⟩).1.layouts ++
      (clean cfgDefault docC1 ⟨0, 0, 0⟩).1.slides :=
    List.mem_singleton.mpr rfl
  have h2 : raiseC1 ∈ [grpC1, raiseC1] :=
    List.mem_cons_of_mem _ (List.mem_singleton.mpr rfl)
  exact ⟨h1, h2,
    C1_theorem cfgDefault docC1 ⟨0, 0, 0⟩ [grpC1, raiseC1] h1 raiseC1 h2⟩

/-- C2: on a slide with pairwise-distinct shape identities, if some
corner Picture passes the link test (`cornerTrigger`), then no corner
Picture of the slide survives `_process_slide` — including the pictures
that carry no link — and `corner_images_removed` grows by the number of
corner Pictures on the slide. -/
theorem C2_theorem (cfg : Config) (sw sh : ℚ) (l : List Shape)
    (c : Counters) (hnd : (l.map Shape.sid).Nodup)
    (htrig : cornerTrigger cfg sw sh l = true) :
    (∀ s ∈ l, isCornerPic (ratMul sw cfg.corner_threshold)
        (ratMul sh cfg.corner_threshold) s = true →
      ∀ s' ∈ (process_slide cfg sw sh l c).1, s'.sid ≠ s.sid) ∧
    (process_slide cfg sw sh l c).2.corner_images_removed =
      c.corner_images_removed +
        l.countP (isCornerPic (ratMul sw cfg.corner_threshold)
          (ratMul sh cfg.corner_threshold)) := by
  constructor
  · intro s hs hcp s' hs' hEq
    rw [process_slide_eq2] at hs'
    unfold slideShapes at hs'
    obtain ⟨hmem, _⟩ := List.mem_filter.mp hs'
    obtain ⟨u, hu, rfl⟩ := List.mem_map.mp hmem
    unfold postCorner at hu
    rw [if_pos htrig] at hu
    obtain ⟨hul, hunc⟩ := List.mem_filter.mp hu
    have hsid : s.sid ∈ cornerIds cfg sw sh l := by
      unfold cornerIds
      exact List.mem_map_of_mem Shape.sid (List.mem_filter.mpr ⟨hs, hcp⟩)
    rw [sid_sweepShape] at hEq
    rw [hEq] at hunc
    have hc : (cornerIds cfg sw sh l).contains s.sid = true :=
      List.elem_eq_true_of_mem hsid
    rw [hc] at hunc
    exact absurd hunc (by simp)
  · rw [process_slide_eq2]
    unfold slideCornerRemovedCount
    rw [if_pos htrig]
    have hcong : l.countP (fun s =>
        (cornerIds cfg sw sh l).contains s.sid) =
        l.countP (isCornerPic (ratMul sw cfg.corner_threshold)
          (ratMul sh cfg.corner_threshold)) := by
      apply countP_congr_mem
      intro a ha
      cases hcp : isCornerPic (ratMul sw cfg.corner_threshold)
          (ratMul sh cfg.corner_threshold) a
      · exact cornerIds_contains_false hnd ha hcp
      · apply List.elem_eq_true_of_mem
        unfold cornerIds
        exact List.mem_map_of_mem Shape.sid
          (List.mem_filter.mpr ⟨ha, hcp⟩)
    rw [hcong]

/-- C2 witness: the concrete slide `slideW2` (two corner pictures, one
linked): both pictures' identities are gone and the corner counter grows
by 2. -/
theorem C2_witness :
    ((slideW2.map Shape.sid).Nodup) ∧
    cornerTrigger cfgDefault (mkRat 10 1) (mkRat 10 1) slideW2 = true ∧
    ((∀ s ∈ slideW2,
        isCornerPic (ratMul (mkRat 10 1) cfgDefault.corner_threshold)
          (ratMul (mkRat 10 1) cfgDefault.corner_threshold) s = true →
      ∀ s' ∈ (process_slide cfgDefault (mkRat 10 1) (mkRat 10 1)
          slideW2 ⟨0, 0, 0⟩).1, s'.sid ≠ s.sid) ∧
     (process_slide cfgDefault (mkRat 10 1) (mkRat 10 1) slideW2
        ⟨0, 0, 0⟩).2.corner_images_removed =
       (0 : Nat) + slideW2.countP
         (isCornerPic (ratMul (mkRat 10 1) cfgDefault.corner_threshold)
           (ratMul (mkRat 10 1) cfgDefault.corner_threshold))) := by
  refine ⟨by decide, by decide, ?_⟩
  exact C2_theorem cfgDefault (mkRat 10 1) (mkRat 10 1) slideW2
    ⟨0, 0, 0⟩ (by decide) (by decide)

/-- C3 (counterexample to the claim as stated): deleting the shape
`shpC3` for its own matching click link returns
`(shapesRemoved, linksRemoved, cornerPicturesRemoved) = (1, 1, 0)` —
the deletion also increments `links_removed` (line
`self.links_removed += 1` inside `_shape_has_target_link`), where the
claim expects `linksRemoved` to stay 0. -/
theorem C3_counterexample :
    clean_result cfgDefault docC3 ⟨0, 0, 0⟩ = (1, 1, 0) ∧
    addrMatches cfgDefault.target_domain shpC3.clickLink = true ∧
    shpC3.textFrame = none := by
  refine ⟨rfl, by decide, rfl⟩

/-- C3 (amended): a shape deleted because its own click-hyperlink
matches is counted once in `shapes_removed` and once more in
`links_removed` (the hit test counts the click link as a removed link);
`links_removed` additionally counts the runs stripped from the text
bodies of the shapes that are kept. -/
theorem C3_theorem (t : String) (l : List Shape) (c : Counters) :
    (process_shape_tree t l c).2.shapes_removed =
      c.shapes_removed + l.countP (hitTest t) ∧
    (process_shape_tree t l c).2.links_removed =
      c.links_removed + (l.map (sweepLinkCount t)).sum ∧
    (∀ s, hitTest t s = true → sweepLinkCount t s = 1) := by
  refine ⟨?_, ?_, ?_⟩
  · rw [process_shape_tree_eq2]
    rfl
  · rw [process_shape_tree_eq2]
    rfl
  · intro s hh
    unfold sweepLinkCount
    rw [if_pos hh]

/-- C3 witness: the amended counting applied to the one-shape container
`[shpC3]`. -/
theorem C3_witness :
    hitTest cfgDefault.target_domain shpC3 = true ∧
    sweepLinkCount cfgDefault.target_domain shpC3 = 1 :=
  ⟨by decide,
   (C3_theorem cfgDefault.target_domain [shpC3] ⟨0, 0, 0⟩).2.2 shpC3
     (by decide)⟩

/-- C4: running `clean` again on an already-cleaned document, with a
fresh cleaner of the same configuration, performs no further removals:
the document is returned unchanged and the returned triple is
`(0, 0, 0)`. -/
theorem C4_theorem (cfg : Config) (d : Document) (c : Counters) :
    clean cfg (clean cfg d c).1 ⟨0, 0, 0⟩ =
      ((clean cfg d c).1, (⟨0, 0, 0⟩ : Counters)) ∧
    clean_result cfg (clean cfg d c).1 ⟨0, 0, 0⟩ = (0, 0, 0) := by
  obtain ⟨h1, h2, h3⟩ := clean_output_clean cfg d c
  have hfix := clean_fix cfg (clean cfg d c).1 ⟨0, 0, 0⟩ h1 h2 h3
  refine ⟨hfix, ?_⟩
  unfold clean_result
  rw [hfix]

/-- C5: `_strip_text_run_links` acts on every run of every paragraph:
a run whose hyperlink matches has its address cleared (text untouched)
and is deleted only when its text strips to empty or whitespace; a run
whose hyperlink does not match is returned untouched; the returned count
is the number of matching runs. -/
theorem C5_theorem (t : String) (tf : TextFrame) :
    strip_text_run_links t tf =
      (tf.map (fun p => p.filterMap (fun r =>
        if addrMatches t r.hyperlink then
          if isBlank r.text then none
          else some { text := r.text, hyperlink := none }
        else some r)),
       (tf.map (fun p =>
         p.countP (fun r => addrMatches t r.hyperlink))).sum) := by
  rw [strip_tf_eq]
  have hr : ∀ r : Run, (strip_run t r).1 =
      (if addrMatches t r.hyperlink then
        if isBlank r.text then none
        else some { text := r.text, hyperlink := none }
      else some r) := by
    intro r
    unfold strip_run
    by_cases hm : addrMatches t r.hyperlink
    · by_cases hb : isBlank r.text <;> simp [hm, hb]
    · simp [hm]
  simp only [strip_para_eq, hr]

/-- C6: `_shape_has_target_link` is true exactly when the shape's own
click action is readable and its address contains the target; the text
frame (run hyperlinks included) never influences the outcome; and a
shape for which the test is false keeps its identity in
`_process_shape_tree`'s output (it is edited by run stripping, not
deleted). -/
theorem C6_theorem (t : String) (s : Shape) (c : Counters) :
    ((shape_has_target_link t s c).1 = true ↔
      (s.clickRaises = false ∧ addrMatches t s.clickLink = true)) ∧
    (∀ tf, (shape_has_target_link t (s.withTextFrame tf) c).1 =
      (shape_has_target_link t s c).1) ∧
    (∀ l, s ∈ l → (shape_has_target_link t s c).1 = false →
      s.sid ∈ ((process_shape_tree t l c).1.map Shape.sid)) := by
  refine ⟨?_, ?_, ?_⟩
  · rw [shape_has_target_link_eq]
    unfold hitTest
    constructor
    · intro h
      simp only [Bool.and_eq_true, Bool.not_eq_true'] at h
      exact h
    · intro ⟨h1, h2⟩
      simp [h1, h2]
  · intro tf
    rw [shape_has_target_link_eq, shape_has_target_link_eq]
    rw [hitTest_congr t (sameButTF_withTextFrame s tf)]
  · intro l hmem hfalse
    rw [shape_has_target_link_eq] at hfalse
    have hmiss : hitTest t s = false := hfalse
    rw [process_shape_tree_eq2]
    unfold treeShapes
    have hin : sweepShape t s ∈ l.filterMap
        (fun u => if hitTest t u then none else some (sweepShape t u)) :=
      List.mem_filterMap.mpr ⟨s, hmem, by rw [if_neg (by simp [hmiss])]⟩
    have := List.mem_map_of_mem Shape.sid hin
    rw [sid_sweepShape] at this
    exact this

/-- C6 witness: the shape `shpW6` carries a matching run hyperlink but
no click link; the test is false and its identity survives the pass. -/
theorem C6_witness :
    (shape_has_target_link cfgDefault.target_domain shpW6 ⟨0, 0, 0⟩).1 =
      false ∧
    shpW6.sid ∈ ((process_shape_tree cfgDefault.target_domain [shpW6]
      ⟨0, 0, 0⟩).1.map Shape.sid) := by
  have h1 : shpW6 ∈ [shpW6] := List.mem_singleton.mpr rfl
  have h2 : (shape_has_target_link cfgDefault.target_domain shpW6
      ⟨0, 0, 0⟩).1 = false := by decide
  exact ⟨h2, (C6_theorem cfgDefault.target_domain shpW6 ⟨0, 0, 0⟩).2.2
    [shpW6] h1 h2⟩

/-- C7 (counterexample to the claim as stated): the corner picture
`p1C7` raises while its link is tested — the test returns false — yet it
is still deleted, because the other corner picture `p2C7` carries a
matching link and the corner sweep removes every corner picture. -/
theorem C7_counterexample :
    p1C7.clickRaises = true ∧
    (shape_has_target_link cfgDefault.target_domain p1C7 ⟨0, 0, 0⟩).1 =
      false ∧
    (clean cfgDefault docC7 ⟨0, 0, 0⟩).1.slides = [[]] := by
  refine ⟨rfl, rfl, rfl⟩

/-- C7 (amended): if testing a shape's click link raises, the test
returns false and the exception does not escape (`_shape_has_target_link`
returns normally); the shape is then never deleted by the link sweep,
and — unless it is a corner picture on a slide whose corner sweep fires
— it survives `_process_slide` (identities pairwise distinct). -/
theorem C7_theorem (cfg : Config) (sw sh : ℚ) (l : List Shape)
    (c : Counters) (s : Shape) (hs : s ∈ l)
    (hraise : s.clickRaises = true)
    (hnd : (l.map Shape.sid).Nodup)
    (hsafe : isCornerPic (ratMul sw cfg.corner_threshold)
      (ratMul sh cfg.corner_threshold) s = false ∨
      cornerTrigger cfg sw sh l = false) :
    shape_has_target_link cfg.target_domain s c = (false, c) ∧
    s.sid ∈ ((process_slide cfg sw sh l c).1.map Shape.sid) := by
  have hmiss : hitTest cfg.target_domain s = false := by
    unfold hitTest
    rw [hraise]
    rfl
  constructor
  · rw [shape_has_target_link_eq, hmiss]
    rfl
  · exact slide_sid_survives c hnd hs hsafe hmiss

/-- C7 witness: the amended statement at the raising non-corner shape
`sW7` on the one-shape slide `lW7`. -/
theorem C7_witness :
    (sW7 ∈ lW7) ∧ sW7.clickRaises = true ∧
    ((lW7.map Shape.sid).Nodup) ∧
    isCornerPic (ratMul (mkRat 10 1) cfgDefault.corner_threshold)
      (ratMul (mkRat 10 1) cfgDefault.corner_threshold) sW7 = false ∧
    (shape_has_target_link cfgDefault.target_domain sW7 ⟨0, 0, 0⟩ =
      (false, ⟨0, 0, 0⟩) ∧
     sW7.sid ∈ ((process_slide cfgDefault (mkRat 10 1) (mkRat 10 1)
       lW7 ⟨0, 0, 0⟩).1.map Shape.sid)) := by
  have h1 : sW7 ∈ lW7 := List.mem_singleton.mpr rfl
  refine ⟨h1, rfl, by decide, by decide, ?_⟩
  exact C7_theorem cfgDefault (mkRat 10 1) (mkRat 10 1) lW7 ⟨0, 0, 0⟩
    sW7 h1 rfl (by decide) (Or.inl (by decide))

/-- C8 (counterexample to the claim as stated): a first call on a fresh
cleaner returns `(1, 1, 0)`; a second call on the SAME instance (its
counters not reset) over an identical document returns `(2, 2, 0)`, not
the second invocation's own removals. -/
theorem C8_counterexample :
    clean_result cfgDefault docC8 ⟨0, 0, 0⟩ = (1, 1, 0) ∧
    clean_result cfgDefault docC8
      (clean cfgDefault docC8 ⟨0, 0, 0⟩).2 = (2, 2, 0) := by
  refine ⟨rfl, rfl⟩

/-- C8 (amended): the counters are per-instance and never reset: a call
to `clean` returns the instance counters, i.e. the incoming counter
state plus this invocation's removals, so a second call on the same
instance reports cumulative totals. -/
theorem C8_theorem (cfg : Config) (d : Document) (c : Counters) :
    clean cfg d c =
      ((clean cfg d ⟨0, 0, 0⟩).1,
       Counters.add c (clean cfg d ⟨0, 0, 0⟩).2) := by
  rw [clean_eq, clean_eq]
  unfold Counters.add
  simp only [Prod.mk.injEq, Counters.mk.injEq]
  refine ⟨trivial, ?_, ?_, ?_⟩ <;> dsimp only <;> omega

/-- C9 (counterexample to the claim as stated): the nested shape
`childC9` lives inside the group `grpC9`, whose own click link matches;
the whole group — its member included — is deleted by the link sweep, so
a nested shape IS deleted (together with its enclosing group). -/
theorem C9_counterexample :
    grpC9.children = [childC9] ∧
    addrMatches cfgDefault.target_domain grpC9.clickLink = true ∧
    (clean cfgDefault docC9 ⟨0, 0, 0⟩).1.slides = [[]] := by
  refine ⟨rfl, by decide, rfl⟩

/-- C9 (amended): `clean` visits only top-level shapes: the link test
and the corner test read nothing from a shape's member list, and every
shape surviving in the output is one of the input's top-level shapes
with its identity, click link, raise flag and member shapes unchanged —
so a nested shape is never individually edited or tested, and disappears
only together with its enclosing top-level shape. -/
theorem C9_theorem (cfg : Config) (d : Document) (c : Counters) :
    (∀ sl ∈ (clean cfg d c).1.masters ++ (clean cfg d c).1.layouts ++
        (clean cfg d c).1.slides,
      ∀ s' ∈ sl, ∃ l ∈ d.masters ++ d.layouts ++ d.slides, ∃ s ∈ l,
        s'.children = s.children ∧ s'.sid = s.sid ∧
        s'.clickLink = s.clickLink ∧ s'.clickRaises = s.clickRaises) ∧
    (∀ s cs c', shape_has_target_link cfg.target_domain
        (s.setChildren cs) c' =
      shape_has_target_link cfg.target_domain s c') ∧
    (∀ s cs re be, is_in_corner (s.setChildren cs) re be =
      is_in_corner s re be) := by
  refine ⟨?_, ?_, ?_⟩
  · intro sl hsl s' hs'
    rw [clean_eq] at hsl
    dsimp only at hsl
    rcases List.mem_append.mp hsl with hsl' | hsl3
    · rcases List.mem_append.mp hsl' with hsl1 | hsl2
      · obtain ⟨l0, hl0, rfl⟩ := List.mem_map.mp hsl1
        obtain ⟨s, hs, rfl, _⟩ :=
          mem_treeShapes cfg.target_domain l0 s' hs'
        exact ⟨l0,
          List.mem_append_left _ (List.mem_append_left _ hl0), s, hs,
          (sweepShape_sameButTF _ s).2.2.2.2.2.2,
          (sweepShape_sameButTF _ s).1,
          (sweepShape_sameButTF _ s).2.2.2.2.2.1,
          (sweepShape_sameButTF _ s).2.2.2.2.1⟩
      · obtain ⟨l0, hl0, rfl⟩ := List.mem_map.mp hsl2
        obtain ⟨s, hs, rfl, _⟩ :=
          mem_treeShapes cfg.target_domain l0 s' hs'
        exact ⟨l0,
          List.mem_append_left _ (List.mem_append_right _ hl0), s, hs,
          (sweepShape_sameButTF _ s).2.2.2.2.2.2,
          (sweepShape_sameButTF _ s).1,
          (sweepShape_sameButTF _ s).2.2.2.2.2.1,
          (sweepShape_sameButTF _ s).2.2.2.2.1⟩
    · obtain ⟨l0, hl0, rfl⟩ := List.mem_map.mp hsl3
      obtain ⟨s, hs, rfl, _⟩ :=
        mem_slideShapes cfg d.slideWidth d.slideHeight l0 s' hs'
      exact ⟨l0, List.mem_append_right _ hl0, s, hs,
        (sweepShape_sameButTF _ s).2.2.2.2.2.2,
        (sweepShape_sameButTF _ s).1,
        (sweepShape_sameButTF _ s).2.2.2.2.2.1,
        (sweepShape_sameButTF _ s).2.2.2.2.1⟩
  · intro s cs c'
    cases s
    rfl
  · intro s cs re be
    cases s
    rfl

/-- C9 witness: the amended statement at the surviving shape `shpW9`
(whose member list is preserved verbatim by the pass). -/
theorem C9_witness :
    ([shpW9] ∈ (clean cfgDefault docW9 ⟨0, 0, 0⟩).1.masters ++
      (clean cfgDefault docW9 ⟨0, 0, 0⟩).1.layouts ++
      (clean cfgDefault docW9 ⟨0, 0, 0⟩).1.slides) ∧
    shpW9 ∈ [shpW9] ∧
    (∃ l ∈ docW9.masters ++ docW9.layouts ++ docW9.slides, ∃ s ∈ l,
      shpW9.children = s.children ∧ shpW9.sid = s.sid ∧
      shpW9.clickLink = s.clickLink ∧
      shpW9.clickRaises = s.clickRaises) := by
  have h1 : [shpW9] ∈ (clean cfgDefault docW9 ⟨0, 0, 0⟩).1.masters ++
      (clean cfgDefault docW9 ⟨0, 0, 0⟩).1.layouts ++
      (clean cfgDefault docW9 ⟨0, 0, 0⟩).1.slides :=
    List.mem_singleton.mpr rfl
  have h2 : shpW9 ∈ [shpW9] := List.mem_singleton.mpr rfl
  exact ⟨h1, h2,
    (C9_theorem cfgDefault docW9 ⟨0, 0, 0⟩).1 [shpW9] h1 shpW9 h2⟩

/-- C10: a shape whose `left` or `top` read raises is never classified
as in the corner — `_is_in_corner` returns false for it — and (with
pairwise-distinct identities) it always survives the corner sweep, so
the corner-link sweep never removes it. -/
theorem C10_theorem (cfg : Config) (sw sh : ℚ) (l : List Shape)
    (s : Shape) (hpos : s.left = none ∨ s.top = none) :
    (∀ re be, is_in_corner s re be = false) ∧
    (s ∈ l → (l.map Shape.sid).Nodup →
      s.sid ∈ ((postCorner cfg sw sh l).map Shape.sid)) := by
  have hic : ∀ re be, is_in_corner s re be = false := by
    intro re be
    unfold is_in_corner
    rcases hpos with h | h
    · rw [h]
    · rw [h]
      cases s.left <;> rfl
  refine ⟨hic, ?_⟩
  intro hs hnd
  have hnc : isCornerPic (ratMul sw cfg.corner_threshold)
      (ratMul sh cfg.corner_threshold) s = false := by
    unfold isCornerPic
    rw [hic]
    simp
  exact List.mem_map_of_mem Shape.sid (mem_postCorner hnd hs (Or.inl hnc))

/-- C10 witness: the position-raising picture `sW10` (with a matching
click link) is never treated as a corner picture and survives the corner
sweep of the slide `lW10`. -/
theorem C10_witness :
    (sW10.left = none ∨ sW10.top = none) ∧ (sW10 ∈ lW10) ∧
    ((lW10.map Shape.sid).Nodup) ∧
    ((∀ re be, is_in_corner sW10 re be = false) ∧
     sW10.sid ∈ ((postCorner cfgDefault (mkRat 10 1) (mkRat 10 1)
        lW10).map Shape.sid)) := by
  have h1 : sW10 ∈ lW10 := List.mem_singleton.mpr rfl
  have hp : sW10.left = none ∨ sW10.top = none := Or.inl rfl
  have h := C10_theorem cfgDefault (mkRat 10 1) (mkRat 10 1) lW10 sW10 hp
  exact ⟨hp, h1, by decide, h.1, h.2 h1 (by decide)⟩
